import Mathlib

/-!
Verification of the StreamShred secure-delete tool (src/tools/StreamShred.py).

Shallow embedding conventions:
- Python `bytes` / `bytearray` values are `List Nat` (one Nat per byte).
- Python slice assignment `buf[i0:i1] = repl` (with `len(repl) = i1 - i0`)
  is `splice buf i0 i1 repl = buf.take i0 ++ repl ++ buf.drop i1`.
- `secrets.randbelow` / `secrets.token_hex` draws are parametrised by
  explicit functions (`rng`, `draw`, ...); hypotheses state the range
  guarantees that `secrets.randbelow n < n` gives.
- The random chunk contents written during one pass are parametrised by the
  full pass content `writeData` (each chunk at offset `st` of length `n` is
  `(writeData.drop st).take n`, mirroring `secrets.token_bytes(n)` being
  written consecutively).
- Read-back from the file is parametrised by `readF : offset → length → bytes`.
- Python exceptions are `Except` / `Option` errors; an exception propagating
  out of a function is modelled as the error value short-circuiting the rest
  of the computation, exactly as `Except.bind` does.
- The directory is a map `FS := Nat → Option Nat` from file names to file
  sizes; overwriting file content in place never changes this map (the write
  loop writes exactly `size` bytes), only truncate / rename / unlink do.
-/

namespace StreamShred

/-- Sample: a planned verification range of the target file
(class `Sample` in the source, fields `offset` and `length`). -/
structure Sample where
  offset : Nat
  length : Nat
deriving DecidableEq, Repr

/-- Python slice assignment `buf[i0:i1] = repl` for equal-size replacement:
keep the first `i0` elements, insert `repl`, keep everything from `i1` on. -/
def splice (buf : List Nat) (i0 i1 : Nat) (repl : List Nat) : List Nat :=
  buf.take i0 ++ repl ++ buf.drop i1

/-- Body of the loop of `capture_expected_from_chunk` for one sample `s`:
skip if the sample range and the chunk do not overlap, otherwise copy the
intersection of the chunk into `exp` and mark the same positions `1` in
`fil` (source lines 125-140). -/
def captureOne (s : Sample) (exp fil chunk : List Nat) (chunkStart : Nat) :
    List Nat × List Nat :=
  let chunkEnd := chunkStart + chunk.length
  let sStart := s.offset
  let sEnd := s.offset + s.length
  if sEnd ≤ chunkStart ∨ chunkEnd ≤ sStart then (exp, fil)
  else
    let overlapStart := max sStart chunkStart
    let overlapEnd := min sEnd chunkEnd
    let i0 := overlapStart - sStart
    let i1 := overlapEnd - sStart
    let c0 := overlapStart - chunkStart
    let c1 := overlapEnd - chunkStart
    (splice exp i0 i1 ((chunk.drop c0).take (c1 - c0)),
     splice fil i0 i1 (List.replicate (i1 - i0) 1))

/-- Model of `capture_expected_from_chunk` (source lines 112-140): iterate
`captureOne` over the samples and their per-sample `expected` / `filled`
buffers.  In every call the three lists have equal length (the caller builds
`expected` and `filled` by mapping over `samples`); the fallback branch for
ragged inputs returns the buffers unchanged. -/
def capture_expected_from_chunk :
    List Sample → List (List Nat) → List (List Nat) → List Nat → Nat →
    List (List Nat) × List (List Nat)
  | s :: ss, e :: es, f :: fs, chunk, chunkStart =>
      let head := captureOne s e f chunk chunkStart
      let rest := capture_expected_from_chunk ss es fs chunk chunkStart
      (head.1 :: rest.1, head.2 :: rest.2)
  | _, es, fs, _, _ => (es, fs)

/-- Model of `all_filled` (source lines 143-144). -/
def all_filled (mask : List Nat) : Bool :=
  mask.all (fun b => b == 1)

/-- Model of `choose_samples` (source lines 101-109).  `rng i n` is the value
of the `i`-th `secrets.randbelow(n)` draw; callers assume `rng i n < n` for
`n > 0`.  Inputs are `Int` because the Python arguments may be negative. -/
def choose_samples (file_size sample_count sample_len : Int)
    (rng : Nat → Nat → Nat) : List Sample :=
  if file_size ≤ 0 ∨ sample_count ≤ 0 ∨ sample_len ≤ 0 then []
  else
    let len := min sample_len file_size
    (List.range sample_count.toNat).map
      (fun i => ⟨rng i ((file_size - len + 1).toNat), len.toNat⟩)

/-- Model of `build_pass_count` (source lines 152-157).  `rnd n` is the value
of `secrets.randbelow(n)`; the `ValueError` is the string it is raised with. -/
def build_pass_count (min_passes max_passes : Int) (randomize : Bool)
    (rnd : Int → Int) : Except String Int :=
  if min_passes < 1 ∨ max_passes < min_passes then .error "Invalid pass bounds"
  else if randomize = false ∨ min_passes = max_passes then .ok min_passes
  else .ok (min_passes + rnd (max_passes - min_passes + 1))

/-- Chunk layout of the streaming write loop (source lines 182-193): starting
at `written`, each step writes `n = min chunkSize (size - written)` bytes at
offset `written` and advances.  Returns the list of `(start, length)` pairs.
The guard `n = 0` can only hold for `chunkSize = 0`, where the Python loop
would not terminate either; all theorems assume `1 ≤ chunkSize`. -/
def chunkLoop (size chunkSize written : Nat) : List (Nat × Nat) :=
  if h : written < size then
    let n := min chunkSize (size - written)
    if hn : n = 0 then []
    else (written, n) :: chunkLoop size chunkSize (written + n)
  else []
termination_by size - written
decreasing_by
  simp only [n] at hn
  omega

/-- WipeError: the errors one target wipe can raise.  The first three model
the precondition exceptions of `wipe_file` (lines 272-277), `invalidPassBounds`
the `ValueError` of `build_pass_count`, and the last two the `RuntimeError`s
of the verify phase (lines 204 and 212); `verificationMismatch` carries the
pass number, the 1-based sample index and the sample offset that appear in
the message of line 213. -/
inductive WipeError
  | fileNotFound
  | isADirectory
  | isASymlink
  | invalidPassBounds
  | internalConsistency
  | verificationMismatch (passIdx sampleIdx offset : Nat)
deriving DecidableEq, Repr

/-- Fold of the streaming loop: feed each chunk `(start, length)` of
`chunks`, with content sliced from the pass content `wd`, through
`capture_expected_from_chunk` (lines 187-190). -/
def stream_fold (samples : List Sample) (wd : List Nat)
    (chunks : List (Nat × Nat))
    (ef : List (List Nat) × List (List Nat)) :
    List (List Nat) × List (List Nat) :=
  chunks.foldl
    (fun ef c =>
      capture_expected_from_chunk samples ef.1 ef.2
        ((wd.drop c.1).take c.2) c.1)
    ef

/-- Expected/filled capture state of one pass: starts with zero-filled
buffers of each sample's length (lines 178-179) and folds every chunk of the
write loop through `capture_expected_from_chunk`. -/
def stream_capture (samples : List Sample) (size chunkSize : Nat)
    (writeData : List Nat) : List (List Nat) × List (List Nat) :=
  stream_fold samples writeData (chunkLoop size chunkSize 0)
    (samples.map (fun s => List.replicate s.length 0),
     samples.map (fun s => List.replicate s.length 0))

/-- Projection of `stream_fold` to a single sample's buffers. -/
def stream_capture_one (s : Sample) (wd : List Nat)
    (chunks : List (Nat × Nat)) (ef : List Nat × List Nat) :
    List Nat × List Nat :=
  chunks.foldl
    (fun ef c => captureOne s ef.1 ef.2 ((wd.drop c.1).take c.2) c.1)
    ef

/-- First loop of the verify phase (lines 202-206): raise the
internal-consistency `RuntimeError` at the first mask that is not fully
filled. -/
def check_filled_loop : List (List Nat) → Except WipeError Unit
  | [] => .ok ()
  | m :: ms =>
      if all_filled m then check_filled_loop ms else .error .internalConsistency

/-- Second loop of the verify phase (lines 208-214): `idx` is the 0-based
index of the head sample; read back each sample and fail at the first
mismatch, naming the pass, the 1-based sample index and the offset.
Ragged input (more samples than buffers) cannot arise from `run_pass`. -/
def verify_read_loop (p : Nat) (readF : Nat → Nat → List Nat) :
    Nat → List Sample → List (List Nat) → Except WipeError Unit
  | _, [], _ => .ok ()
  | _, _ :: _, [] => .ok ()
  | idx, s :: ss, e :: es =>
      if readF s.offset s.length = e then verify_read_loop p readF (idx + 1) ss es
      else .error (.verificationMismatch p (idx + 1) s.offset)

/-- Verify phase of one pass (lines 201-214): the filled-mask check runs
before any sample is read back. -/
def verify_phase (p : Nat) (samples : List Sample)
    (expected filled : List (List Nat)) (readF : Nat → Nat → List Nat) :
    Except WipeError Unit :=
  match check_filled_loop filled with
  | .error e => .error e
  | .ok () => verify_read_loop p readF 0 samples expected

/-- One pass of the streaming loop of `overwrite_random_streaming`
(lines 176-222) with `verify = true`: capture expected bytes while the chunks
stream by, then (when samples were planned) run the verify phase.  `samples`
is the outcome of the pass's `choose_samples` call, `writeData` the
concatenated random chunks written, `readF` the read-back. -/
def run_pass (size chunkSize : Nat) (samples : List Sample)
    (writeData : List Nat) (readF : Nat → Nat → List Nat) (p : Nat) :
    Except WipeError Unit :=
  let ef := stream_capture samples size chunkSize writeData
  if samples.isEmpty then .ok ()
  else verify_phase p samples ef.1 ef.2 readF

/-- Pass loop `for p in range(1, passes + 1)` (line 176), as a recursion from
`p` up to `passes`; an exception in pass `p` propagates and skips the rest. -/
def pass_loop (size chunkSize passes : Nat) (samplesF : Nat → List Sample)
    (writeF : Nat → List Nat) (readF : Nat → Nat → Nat → List Nat)
    (p : Nat) : Except WipeError Unit :=
  if p > passes then .ok ()
  else
    match run_pass size chunkSize (samplesF p) (writeF p) (readF p) p with
    | .error e => .error e
    | .ok () => pass_loop size chunkSize passes samplesF writeF readF (p + 1)
termination_by passes + 1 - p

/-- Model of `overwrite_random_streaming` (lines 160-222): returns
immediately on a zero-size file (line 170), otherwise runs the pass loop.
`samplesF p` is the outcome of pass `p`'s `choose_samples` draw (empty when
`verify` is off, line 177). -/
def overwrite_random_streaming (size chunkSize passes : Nat)
    (samplesF : Nat → List Sample) (writeF : Nat → List Nat)
    (readF : Nat → Nat → Nat → List Nat) : Except WipeError Unit :=
  if size = 0 then .ok ()
  else pass_loop size chunkSize passes samplesF writeF readF 1

/-- FS: the target's directory, a map from file name to file size.  Names
are abstracted to `Nat` (the directory component never changes:
`with_name` keeps the parent). -/
abbrev FS := Nat → Option Nat

/-- FsOp: filesystem operations the deletion sequencer performs, in order. -/
inductive FsOp
  | rename (a b : Nat)
  | dirsync
  | truncate (n : Nat)
  | flushFile
  | syncFile
  | unlink (n : Nat)
deriving DecidableEq, Repr

/-- Collision-retry loop of one rename pass (lines 231-235): while the
candidate `name` exists and fewer than 10 regenerations happened, draw the
next candidate.  `draw t` is the `t`-th `rand_name_hex` draw of this rename
pass (`draw 0` is the initial candidate of line 229). -/
def retry_loop (fs : FS) (draw : Nat → Nat) (name tries : Nat) : Nat :=
  if (fs name).isSome ∧ tries < 10 then
    retry_loop fs draw (draw (tries + 1)) (tries + 1)
  else name
termination_by 10 - tries

/-- One rename pass (lines 228-238): pick a candidate via the retry loop and
rename onto it; renaming onto an existing name replaces that entry, renaming
onto the same name is a no-op.  Returns the new directory map, the new
current name, and the operations performed. -/
def rename_once (fs : FS) (cur : Nat) (draw : Nat → Nat) :
    FS × Nat × List FsOp :=
  let cand := retry_loop fs draw (draw 0) 0
  (fun n => if n = cand then fs cur else if n = cur then none else fs n,
   cand, [.rename cur cand, .dirsync])

/-- The `for _ in range(max(0, rename_passes))` loop of lines 228-238.
`rng k t` is the `t`-th name draw of the `k`-th rename pass. -/
def rename_loop (rng : Nat → Nat → Nat) :
    FS → Nat → Nat → Nat → (FS × Nat) × List FsOp
  | fs, cur, _, 0 => ((fs, cur), [])
  | fs, cur, k, r + 1 =>
      let step := rename_once fs cur (rng k)
      let rest := rename_loop rng step.1 step.2.1 (k + 1) r
      (rest.1, step.2.2 ++ rest.2)

/-- Model of `rename_truncate_unlink` (lines 225-254) on the success path:
rename passes, then truncate to zero / flush / sync (the file exists here, so
the `try` block succeeds), then keep or unlink.  Returns the final directory
map, the final name, and the trace of operations. -/
def rename_truncate_unlink (fs : FS) (path : Nat) (rename_passes : Nat)
    (keep : Bool) (rng : Nat → Nat → Nat) : (FS × Nat) × List FsOp :=
  let ren := rename_loop rng fs path 0 rename_passes
  let fs1 := ren.1.1
  let cur := ren.1.2
  let fs2 : FS := fun n =>
    if n = cur then (if (fs1 cur).isSome then some 0 else fs1 n) else fs1 n
  if keep then
    ((fs2, cur), ren.2 ++ [.truncate cur, .flushFile, .syncFile, .dirsync])
  else
    ((fun n => if n = cur then none else fs2 n, cur),
     ren.2 ++ [.truncate cur, .flushFile, .syncFile, .unlink cur, .dirsync])

/-- Target: what the target path names.  `link` is a symbolic link to a
referent (possibly itself missing or a directory). -/
inductive Target
  | missing
  | file
  | dir
  | link (referent : Target)
deriving DecidableEq, Repr

/-- Python `Path.exists()`: follows symbolic links. -/
def followExists : Target → Bool
  | .missing => false
  | .file => true
  | .dir => true
  | .link r => followExists r

/-- Python `Path.is_dir()`: follows symbolic links. -/
def followIsDir : Target → Bool
  | .dir => true
  | .link r => followIsDir r
  | _ => false

/-- Python `Path.is_symlink()`: does not follow. -/
def isSymlink : Target → Bool
  | .link _ => true
  | _ => false

/-- Precondition checks of `wipe_file` (lines 272-277), in source order:
missing (after following links) first, then directory, then symlink. -/
def wipe_file_checks (t : Target) : Option WipeError :=
  if followExists t = false then some .fileNotFound
  else if followIsDir t then some .isADirectory
  else if isSymlink t then some .isASymlink
  else none

/-- Model of `wipe_file` (lines 257-311) on the `force = true` path (the
interactive confirmation is out-of-scope glue).  Returns the raised error (if
any) and the directory map afterwards.  A raised error leaves the directory
map unchanged: precondition errors and the `ValueError` fire before any
filesystem operation, and the overwrite loop rewrites file content in place
without touching sizes or names. -/
def wipe_file (t : Target) (fs : FS) (path : Nat)
    (min_passes max_passes : Int) (randomize : Bool) (passRnd : Int → Int)
    (chunkSize : Nat) (samplesF : Nat → List Sample)
    (writeF : Nat → List Nat) (readF : Nat → Nat → Nat → List Nat)
    (rename_passes : Nat) (keep : Bool) (nameRng : Nat → Nat → Nat) :
    Option WipeError × FS :=
  match wipe_file_checks t with
  | some e => (some e, fs)
  | none =>
    match build_pass_count min_passes max_passes randomize passRnd with
    | .error _ => (some .invalidPassBounds, fs)
    | .ok passes =>
      let size := (fs path).getD 0
      match (if 0 < size then
               overwrite_random_streaming size chunkSize passes.toNat
                 samplesF writeF readF
             else .ok ()) with
      | .error e => (some e, fs)
      | .ok () =>
        (none, (rename_truncate_unlink fs path rename_passes keep nameRng).1.1)

/-- IOFailure: injected filesystem errors for the deletion sequencer. -/
inductive IOFailure
  | renameFailed (k : Nat)
  | unlinkFailed
deriving DecidableEq, Repr

/-- EffOp: completed steps of the failure-aware deletion sequencer. -/
inductive EffOp
  | renamed (k : Nat)
  | truncated
  | flushed
  | synced
  | truncateSuppressed
  | unlinked
  | dirsynced
deriving DecidableEq, Repr

/-- Rename stage of `rename_truncate_unlink` with injected failures: rename
pass `k` raises iff `renameFail k`; a raise propagates at once, performing no
further pass (there is no retry in lines 228-238). -/
def renames_eff (renameFail : Nat → Bool) :
    Nat → Nat → Option IOFailure × List EffOp
  | _, 0 => (none, [])
  | k, r + 1 =>
      if renameFail k then (some (.renameFailed k), [])
      else
        let rest := renames_eff renameFail (k + 1) r
        (rest.1, .renamed k :: rest.2)

/-- Failure-aware model of `rename_truncate_unlink` (lines 225-254): a rename
failure propagates; a failure anywhere in the truncate/flush/sync block is
caught by the `except Exception: pass` of lines 245-246 and the sequence
continues; an unlink failure propagates.  Returns the raised error (if any)
and the steps completed. -/
def rename_truncate_unlink_eff (renameFail : Nat → Bool)
    (truncFail unlinkFail : Bool) (rename_passes : Nat) (keep : Bool) :
    Option IOFailure × List EffOp :=
  match renames_eff renameFail 0 rename_passes with
  | (some e, tr) => (some e, tr)
  | (none, tr) =>
    let ttr := if truncFail then [EffOp.truncateSuppressed]
               else [EffOp.truncated, EffOp.flushed, EffOp.synced]
    if keep then (none, tr ++ ttr ++ [.dirsynced])
    else if unlinkFail then (some .unlinkFailed, tr ++ ttr)
    else (none, tr ++ ttr ++ [.unlinked, .dirsynced])

/-! Helper lemmas about `splice` and `captureOne`. -/

theorem splice_length (buf repl : List Nat) (i0 i1 : Nat) (h0 : i0 ≤ i1)
    (h1 : i1 ≤ buf.length) (hr : repl.length = i1 - i0) :
    (splice buf i0 i1 repl).length = buf.length := by
  simp only [splice, List.length_append, List.length_take, List.length_drop]
  omega

theorem splice_getElem? (buf repl : List Nat) (i0 i1 j : Nat) (h0 : i0 ≤ i1)
    (h1 : i1 ≤ buf.length) (hr : repl.length = i1 - i0) :
    (splice buf i0 i1 repl)[j]? =
      if j < i0 then buf[j]? else if j < i1 then repl[j - i0]? else buf[j]? := by
  have hti : (buf.take i0).length = i0 := by
    simp only [List.length_take]
    omega
  simp only [splice, List.append_assoc]
  rw [List.getElem?_append, hti]
  by_cases hj0 : j < i0
  · simp [hj0, List.getElem?_take]
  · rw [if_neg hj0, if_neg hj0, List.getElem?_append, hr]
    by_cases hj1 : j < i1
    · rw [if_pos (by omega), if_pos hj1]
    · rw [if_neg (by omega), if_neg hj1, List.getElem?_drop]
      congr 1
      omega

theorem captureOne_fst_length (s : Sample) (exp fil chunk : List Nat)
    (cs : Nat) (he : exp.length = s.length) :
    (captureOne s exp fil chunk cs).1.length = s.length := by
  unfold captureOne
  by_cases hskip : s.offset + s.length ≤ cs ∨ cs + chunk.length ≤ s.offset
  · simp [hskip, he]
  · rw [if_neg hskip]
    push_neg at hskip
    rw [splice_length _ _ _ _ (by omega) (by omega)
      (by simp only [List.length_take, List.length_drop] <;> omega), he]

theorem captureOne_snd_length (s : Sample) (exp fil chunk : List Nat)
    (cs : Nat) (hf : fil.length = s.length) :
    (captureOne s exp fil chunk cs).2.length = s.length := by
  unfold captureOne
  by_cases hskip : s.offset + s.length ≤ cs ∨ cs + chunk.length ≤ s.offset
  · simp [hskip, hf]
  · rw [if_neg hskip]
    push_neg at hskip
    rw [splice_length _ _ _ _ (by omega) (by omega)
      (by simp only [List.length_replicate] <;> omega), hf]

theorem captureOne_fst_getElem? (s : Sample) (exp fil chunk : List Nat)
    (cs j : Nat) (he : exp.length = s.length) (hj : j < s.length) :
    (captureOne s exp fil chunk cs).1[j]? =
      if cs ≤ s.offset + j ∧ s.offset + j < cs + chunk.length
      then chunk[s.offset + j - cs]? else exp[j]? := by
  unfold captureOne
  by_cases hskip : s.offset + s.length ≤ cs ∨ cs + chunk.length ≤ s.offset
  · rw [if_pos hskip, if_neg (by omega)]
  · rw [if_neg hskip]
    push_neg at hskip
    rw [splice_getElem? _ _ _ _ _ (by omega) (by omega)
      (by simp only [List.length_take, List.length_drop] <;> omega)]
    by_cases hr : cs ≤ s.offset + j ∧ s.offset + j < cs + chunk.length
    · rw [if_neg (by omega), if_pos (by omega), if_pos hr,
        List.getElem?_take, if_pos (by omega), List.getElem?_drop]
      congr 1
      omega
    · rw [if_neg hr]
      by_cases hlow : j < max s.offset cs - s.offset
      · rw [if_pos hlow]
      · rw [if_neg hlow, if_neg (by omega)]

theorem captureOne_snd_getElem? (s : Sample) (exp fil chunk : List Nat)
    (cs j : Nat) (hf : fil.length = s.length) (hj : j < s.length) :
    (captureOne s exp fil chunk cs).2[j]? =
      if cs ≤ s.offset + j ∧ s.offset + j < cs + chunk.length
      then some 1 else fil[j]? := by
  unfold captureOne
  by_cases hskip : s.offset + s.length ≤ cs ∨ cs + chunk.length ≤ s.offset
  · rw [if_pos hskip, if_neg (by omega)]
  · rw [if_neg hskip]
    push_neg at hskip
    rw [splice_getElem? _ _ _ _ _ (by omega) (by omega)
      (by simp only [List.length_replicate]) ]
    by_cases hr : cs ≤ s.offset + j ∧ s.offset + j < cs + chunk.length
    · rw [if_neg (by omega), if_pos (by omega), List.getElem?_replicate,
        if_pos (by omega), if_pos hr]
    · rw [if_neg hr]
      by_cases hlow : j < max s.offset cs - s.offset
      · rw [if_pos hlow]
      · rw [if_neg hlow, if_neg (by omega)]

theorem capture_fst_length :
    ∀ (ss : List Sample) (es fs : List (List Nat)) (c : List Nat) (cs : Nat),
    es.length = ss.length → fs.length = ss.length →
    (capture_expected_from_chunk ss es fs c cs).1.length = ss.length
  | [], es, fs, c, cs, he, hf => by
      simp only [List.length_nil, List.length_eq_zero] at he
      subst he
      simp [capture_expected_from_chunk]
  | s :: ss, e :: es, f :: fs, c, cs, he, hf => by
      simp only [List.length_cons, Nat.add_right_cancel_iff] at he hf
      simp only [capture_expected_from_chunk, List.length_cons,
        capture_fst_length ss es fs c cs he hf]

theorem capture_snd_length :
    ∀ (ss : List Sample) (es fs : List (List Nat)) (c : List Nat) (cs : Nat),
    es.length = ss.length → fs.length = ss.length →
    (capture_expected_from_chunk ss es fs c cs).2.length = ss.length
  | [], es, fs, c, cs, he, hf => by
      simp only [List.length_nil, List.length_eq_zero] at hf
      subst hf
      simp [capture_expected_from_chunk]
  | s :: ss, e :: es, f :: fs, c, cs, he, hf => by
      simp only [List.length_cons, Nat.add_right_cancel_iff] at he hf
      simp only [capture_expected_from_chunk, List.length_cons,
        capture_snd_length ss es fs c cs he hf]

theorem capture_fst_getD :
    ∀ (ss : List Sample) (es fs : List (List Nat)) (c : List Nat) (cs i : Nat),
    es.length = ss.length → fs.length = ss.length → i < ss.length →
    (capture_expected_from_chunk ss es fs c cs).1.getD i [] =
      (captureOne (ss.getD i ⟨0, 0⟩) (es.getD i []) (fs.getD i []) c cs).1
  | s :: ss, e :: es, f :: fs, c, cs, 0, he, hf, hi => by
      simp [capture_expected_from_chunk]
  | s :: ss, e :: es, f :: fs, c, cs, i + 1, he, hf, hi => by
      simp only [List.length_cons, Nat.add_right_cancel_iff] at he hf
      simp only [capture_expected_from_chunk, List.getD_cons_succ]
      exact capture_fst_getD ss es fs c cs i he hf (by simpa using hi)

theorem capture_snd_getD :
    ∀ (ss : List Sample) (es fs : List (List Nat)) (c : List Nat) (cs i : Nat),
    es.length = ss.length → fs.length = ss.length → i < ss.length →
    (capture_expected_from_chunk ss es fs c cs).2.getD i [] =
      (captureOne (ss.getD i ⟨0, 0⟩) (es.getD i []) (fs.getD i []) c cs).2
  | s :: ss, e :: es, f :: fs, c, cs, 0, he, hf, hi => by
      simp [capture_expected_from_chunk]
  | s :: ss, e :: es, f :: fs, c, cs, i + 1, he, hf, hi => by
      simp only [List.length_cons, Nat.add_right_cancel_iff] at he hf
      simp only [capture_expected_from_chunk, List.getD_cons_succ]
      exact capture_snd_getD ss es fs c cs i he hf (by simpa using hi)

/-- C1: for every sample range with nonnegative start and length at least one
and every chunk, `capture_expected_from_chunk` leaves the sample's buffers
unchanged when range and chunk do not overlap; otherwise it writes exactly
the chunk bytes of the intersection into `expected` at sample-relative
offsets, marks the same `filled` positions `1`, and leaves every position
outside the intersection unchanged.  Offsets are `Nat`, so `s_start ≥ 0`
holds by construction. -/
theorem C1_capture_expected_from_chunk_spec
    (samples : List Sample) (expected filled : List (List Nat))
    (chunk : List Nat) (chunkStart : Nat) (i : Nat) (s : Sample)
    (hi : i < samples.length)
    (hs : samples.getD i ⟨0, 0⟩ = s)
    (hel : expected.length = samples.length)
    (hfl : filled.length = samples.length)
    (hie : (expected.getD i []).length = s.length)
    (hif : (filled.getD i []).length = s.length)
    (hpos : 1 ≤ s.length) :
    ((s.offset + s.length ≤ chunkStart ∨ chunkStart + chunk.length ≤ s.offset) →
      (capture_expected_from_chunk samples expected filled chunk chunkStart).1.getD i []
          = expected.getD i [] ∧
      (capture_expected_from_chunk samples expected filled chunk chunkStart).2.getD i []
          = filled.getD i []) ∧
    (¬ (s.offset + s.length ≤ chunkStart ∨ chunkStart + chunk.length ≤ s.offset) →
      ∀ j, j < s.length →
        ((max s.offset chunkStart - s.offset ≤ j ∧
            j < min (s.offset + s.length) (chunkStart + chunk.length) - s.offset) →
          ((capture_expected_from_chunk samples expected filled chunk chunkStart).1.getD i [])[j]?
              = chunk[s.offset + j - chunkStart]? ∧
          ((capture_expected_from_chunk samples expected filled chunk chunkStart).2.getD i [])[j]?
              = some 1) ∧
        (¬ (max s.offset chunkStart - s.offset ≤ j ∧
            j < min (s.offset + s.length) (chunkStart + chunk.length) - s.offset) →
          ((capture_expected_from_chunk samples expected filled chunk chunkStart).1.getD i [])[j]?
              = (expected.getD i [])[j]? ∧
          ((capture_expected_from_chunk samples expected filled chunk chunkStart).2.getD i [])[j]?
              = (filled.getD i [])[j]?)) := by
  rw [capture_fst_getD samples expected filled chunk chunkStart i hel hfl hi,
    capture_snd_getD samples expected filled chunk chunkStart i hel hfl hi, hs]
  constructor
  · intro hskip
    unfold captureOne
    rw [if_pos hskip]
    exact ⟨rfl, rfl⟩
  · intro hskip j hj
    push_neg at hskip
    constructor
    · intro hreg
      rw [captureOne_fst_getElem? s _ _ chunk chunkStart j hie hj,
        captureOne_snd_getElem? s _ _ chunk chunkStart j hif hj,
        if_pos (by omega), if_pos (by omega)]
      exact ⟨rfl, rfl⟩
    · intro hreg
      rw [captureOne_fst_getElem? s _ _ chunk chunkStart j hie hj,
        captureOne_snd_getElem? s _ _ chunk chunkStart j hif hj,
        if_neg (by omega), if_neg (by omega)]
      exact ⟨rfl, rfl⟩

/-! Streaming coverage: the fold acts on each sample's buffers independently. -/

theorem getD_map_replicate (ss : List Sample) (i : Nat) (hi : i < ss.length) :
    (ss.map (fun s => List.replicate s.length (0 : Nat))).getD i [] =
      List.replicate (ss.getD i ⟨0, 0⟩).length 0 := by
  rw [List.getD_eq_getElem?_getD, List.getD_eq_getElem?_getD,
    List.getElem?_map, List.getElem?_eq_getElem hi]
  rfl

theorem stream_fold_length (ss : List Sample) (wd : List Nat) :
    ∀ (chunks : List (Nat × Nat)) (es fs : List (List Nat)),
    es.length = ss.length → fs.length = ss.length →
    (stream_fold ss wd chunks (es, fs)).1.length = ss.length ∧
    (stream_fold ss wd chunks (es, fs)).2.length = ss.length
  | [], es, fs, he, hf => ⟨he, hf⟩
  | c :: cs, es, fs, he, hf => by
      have := stream_fold_length ss wd cs
        (capture_expected_from_chunk ss es fs ((wd.drop c.1).take c.2) c.1).1
        (capture_expected_from_chunk ss es fs ((wd.drop c.1).take c.2) c.1).2
        (capture_fst_length ss es fs _ c.1 he hf)
        (capture_snd_length ss es fs _ c.1 he hf)
      simpa only [stream_fold, List.foldl_cons] using this

theorem stream_fold_spec (ss : List Sample) (wd : List Nat) (i : Nat)
    (hi : i < ss.length) :
    ∀ (chunks : List (Nat × Nat)) (es fs : List (List Nat)),
    es.length = ss.length → fs.length = ss.length →
    (stream_fold ss wd chunks (es, fs)).1.getD i [] =
      (stream_capture_one (ss.getD i ⟨0, 0⟩) wd chunks
        (es.getD i [], fs.getD i [])).1 ∧
    (stream_fold ss wd chunks (es, fs)).2.getD i [] =
      (stream_capture_one (ss.getD i ⟨0, 0⟩) wd chunks
        (es.getD i [], fs.getD i [])).2
  | [], es, fs, he, hf => ⟨rfl, rfl⟩
  | c :: cs, es, fs, he, hf => by
      have he1 := capture_fst_length ss es fs ((wd.drop c.1).take c.2) c.1 he hf
      have hf1 := capture_snd_length ss es fs ((wd.drop c.1).take c.2) c.1 he hf
      have hrec := stream_fold_spec ss wd i hi cs
        (capture_expected_from_chunk ss es fs ((wd.drop c.1).take c.2) c.1).1
        (capture_expected_from_chunk ss es fs ((wd.drop c.1).take c.2) c.1).2
        he1 hf1
      simp only [stream_fold, stream_capture_one, List.foldl_cons] at hrec ⊢
      rw [capture_fst_getD ss es fs _ _ i he hf hi,
        capture_snd_getD ss es fs _ _ i he hf hi] at hrec
      exact hrec

theorem stream_capture_one_length (s : Sample) (wd : List Nat) :
    ∀ (chunks : List (Nat × Nat)) (e f : List Nat),
    e.length = s.length → f.length = s.length →
    (stream_capture_one s wd chunks (e, f)).1.length = s.length ∧
    (stream_capture_one s wd chunks (e, f)).2.length = s.length
  | [], e, f, he, hf => ⟨he, hf⟩
  | c :: cs, e, f, he, hf => by
      have := stream_capture_one_length s wd cs
        (captureOne s e f ((wd.drop c.1).take c.2) c.1).1
        (captureOne s e f ((wd.drop c.1).take c.2) c.1).2
        (captureOne_fst_length s e f _ c.1 he)
        (captureOne_snd_length s e f _ c.1 hf)
      simpa only [stream_capture_one, List.foldl_cons] using this

theorem cover_go (s : Sample) (wd : List Nat) (size csz written : Nat)
    (e f : List Nat)
    (hcs : 1 ≤ csz) (hsz : s.offset + s.length ≤ size) (hwd : size ≤ wd.length)
    (he : e.length = s.length) (hf : f.length = s.length)
    (hinv : ∀ j, j < s.length → s.offset + j < written → f[j]? = some 1)
    (j : Nat) (hj : j < s.length) :
    (stream_capture_one s wd (chunkLoop size csz written) (e, f)).2[j]? =
      some 1 := by
  by_cases h : written < size
  · rw [chunkLoop]
    simp only [dif_pos h]
    have hn : ¬ (min csz (size - written) = 0) := by omega
    rw [dif_neg hn]
    have hdl : ((wd.drop written).take (min csz (size - written))).length =
        min csz (size - written) := by
      simp only [List.length_take, List.length_drop]
      omega
    have hstep : stream_capture_one s wd
        ((written, min csz (size - written)) ::
          chunkLoop size csz (written + min csz (size - written))) (e, f) =
        stream_capture_one s wd
          (chunkLoop size csz (written + min csz (size - written)))
          (captureOne s e f ((wd.drop written).take (min csz (size - written)))
            written) := by
      simp only [stream_capture_one, List.foldl_cons]
    rw [hstep]
    have hres := cover_go s wd size csz (written + min csz (size - written))
      (captureOne s e f ((wd.drop written).take (min csz (size - written)))
        written).1
      (captureOne s e f ((wd.drop written).take (min csz (size - written)))
        written).2
      hcs hsz hwd
      (captureOne_fst_length s e f _ written he)
      (captureOne_snd_length s e f _ written hf)
      (by
        intro j' hj' hlt
        rw [captureOne_snd_getElem? s e f _ written j' hf hj', hdl]
        by_cases hc : written ≤ s.offset + j' ∧
            s.offset + j' < written + min csz (size - written)
        · rw [if_pos hc]
        · rw [if_neg hc]
          exact hinv j' hj' (by omega))
      j hj
    exact hres
  · rw [chunkLoop]
    simp only [dif_neg h]
    exact hinv j hj (by omega)
termination_by size - written
decreasing_by omega

theorem all_filled_eq_false_of_mem_zero (m : List Nat) (hm : (0 : Nat) ∈ m) :
    all_filled m = false := by
  rcases List.getElem_of_mem hm with ⟨k, hk, hmk⟩
  refine Bool.eq_false_iff.mpr (fun hall => ?_)
  rw [all_filled, List.all_eq_true] at hall
  have := hall 0 hm
  simp at this

theorem check_filled_loop_err :
    ∀ (fl : List (List Nat)), (∃ m ∈ fl, (0 : Nat) ∈ m) →
    check_filled_loop fl = .error .internalConsistency
  | m0 :: ms, hex => by
      rw [check_filled_loop]
      by_cases hall : all_filled m0 = true
      · rw [if_pos hall]
        rcases hex with ⟨m, hm, hzero⟩
        rcases List.mem_cons.mp hm with rfl | htail
        · rw [all_filled_eq_false_of_mem_zero m hzero] at hall
          cases hall
        · exact check_filled_loop_err ms ⟨m, htail, hzero⟩
      · rw [if_neg hall]

theorem stream_capture_all_filled (size csz : Nat) (samples : List Sample)
    (wd : List Nat)
    (hcs : 1 ≤ csz) (hwd : size ≤ wd.length)
    (hsamp : ∀ s ∈ samples, s.offset + s.length ≤ size) :
    ∀ m ∈ (stream_capture samples size csz wd).2, ∀ b ∈ m, b = 1 := by
  intro m hm b hb
  have hinitlen : (samples.map (fun s => List.replicate s.length (0 : Nat))).length
      = samples.length := by simp
  rcases List.getElem_of_mem hm with ⟨i, hilen, hmi⟩
  have hflen := stream_fold_length samples wd (chunkLoop size csz 0)
    _ _ hinitlen hinitlen
  have hi : i < samples.length := by
    have := hflen.2
    rw [stream_capture] at hilen
    omega
  have hspec := stream_fold_spec samples wd i hi (chunkLoop size csz 0)
    _ _ hinitlen hinitlen
  have hm_eq : (stream_capture samples size csz wd).2.getD i [] = m := by
    rw [List.getD_eq_getElem?_getD, List.getElem?_eq_getElem hilen, hmi]
    rfl
  rw [stream_capture] at hm_eq
  rw [hspec.2, getD_map_replicate samples i hi] at hm_eq
  have hmem : samples.getD i ⟨0, 0⟩ ∈ samples := by
    rw [List.getD_eq_getElem?_getD, List.getElem?_eq_getElem hi]
    exact List.getElem_mem hi
  have hbound := hsamp _ hmem
  have hrep : (List.replicate (samples.getD i ⟨0, 0⟩).length (0 : Nat)).length
      = (samples.getD i ⟨0, 0⟩).length := by simp
  have hcov := fun (j : Nat) (hj : j < (samples.getD i ⟨0, 0⟩).length) =>
    cover_go (samples.getD i ⟨0, 0⟩) wd size csz 0
      (List.replicate (samples.getD i ⟨0, 0⟩).length 0)
      (List.replicate (samples.getD i ⟨0, 0⟩).length 0)
      hcs hbound hwd hrep hrep
      (fun j _ hlt => absurd hlt (by omega)) j hj
  have hmlen : m.length = (samples.getD i ⟨0, 0⟩).length := by
    rw [← hm_eq]
    exact (stream_capture_one_length _ wd (chunkLoop size csz 0)
      _ _ hrep hrep).2
  rcases List.getElem_of_mem hb with ⟨k, hk, hbk⟩
  have hk2 : k < (samples.getD i ⟨0, 0⟩).length := by omega
  have hcovk := hcov k hk2
  have hbk2 : m[k]? = some b := by
    rw [List.getElem?_eq_getElem hk, hbk]
  rw [← hm_eq, hcovk] at hbk2
  exact Option.some_injective _ hbk2.symm

/-- C2: over a file of positive size, with every sample inside the file and
the pass content covering the whole file, folding every chunk of the
streaming loop (which tags chunks with their start offsets, consecutively
covering the file) through the tracker leaves every byte of every sample's
filled mask equal to `1`; and whenever any filled entry is `0`, the verify
phase raises the internal-consistency error, uniformly in the read-back
function — no read of the file can influence it, so the failure precedes
any read-back. -/
theorem C2_streaming_coverage (size csz : Nat) (samples : List Sample)
    (wd : List Nat)
    (hsz : 0 < size) (hcs : 1 ≤ csz) (hwd : size ≤ wd.length)
    (hsamp : ∀ s ∈ samples, s.offset + s.length ≤ size) :
    (∀ m ∈ (stream_capture samples size csz wd).2, ∀ b ∈ m, b = 1) ∧
    (∀ (p : Nat) (expected filled : List (List Nat))
        (readF : Nat → Nat → List Nat),
      (∃ m ∈ filled, (0 : Nat) ∈ m) →
      verify_phase p samples expected filled readF =
        .error .internalConsistency) := by
  constructor
  · exact stream_capture_all_filled size csz samples wd hcs hwd hsamp
  · intro p expected filled readF hex
    have hchk := check_filled_loop_err filled hex
    simp only [verify_phase, hchk]

/-- Witness for C1 at a concrete input: sample `[2,5)`, chunk `[1,3)`,
intersection `[2,3)`: sample-relative position `0` receives chunk byte `8`
and is marked filled. -/
theorem C1_capture_expected_from_chunk_spec_witness :
    ((capture_expected_from_chunk [⟨2, 3⟩] [[5, 5, 5]] [[0, 0, 0]] [9, 8] 1).1.getD 0 [])[0]?
        = some 8 ∧
    ((capture_expected_from_chunk [⟨2, 3⟩] [[5, 5, 5]] [[0, 0, 0]] [9, 8] 1).2.getD 0 [])[0]?
        = some 1 := by
  have h := (C1_capture_expected_from_chunk_spec [⟨2, 3⟩] [[5, 5, 5]] [[0, 0, 0]]
    [9, 8] 1 0 ⟨2, 3⟩ (by decide) rfl (by decide) (by decide) (by decide)
    (by decide) (by decide)).2 (by decide) 0 (by decide)
  have h2 := h.1 (by decide)
  exact ⟨h2.1.trans (by decide), h2.2⟩

/-- Witness for C2 at a concrete input: a filled mask containing a `0` entry
makes the verify phase fail with the internal-consistency error, whatever the
read-back returns. -/
theorem C2_streaming_coverage_witness :
    verify_phase 1 [⟨1, 2⟩] [[3, 3]] [[1, 0]] (fun _ _ => []) =
      .error .internalConsistency :=
  (C2_streaming_coverage 4 2 [⟨1, 2⟩] [7, 7, 7, 7] (by decide) (by decide)
    (by decide) (by decide)).2 1 [[3, 3]] [[1, 0]] (fun _ _ => [])
    ⟨[1, 0], by decide, by decide⟩

/-- C5: `choose_samples` returns the empty list when any of the three inputs
is non-positive; otherwise it clamps the sample length to the file size and
every returned range has `length = min sample_len file_size` and
`offset + length ≤ file_size` (offsets are `Nat`, so `0 ≤ offset` holds by
construction).  `rng i n` models the `i`-th `secrets.randbelow(n)` draw, so
`rng i n < n` whenever `0 < n`. -/
theorem C5_choose_samples_spec (file_size sample_count sample_len : Int)
    (rng : Nat → Nat → Nat)
    (hr : ∀ i n, 0 < n → rng i n < n) :
    ((file_size ≤ 0 ∨ sample_count ≤ 0 ∨ sample_len ≤ 0) →
      choose_samples file_size sample_count sample_len rng = []) ∧
    (¬ (file_size ≤ 0 ∨ sample_count ≤ 0 ∨ sample_len ≤ 0) →
      ∀ s ∈ choose_samples file_size sample_count sample_len rng,
        (s.length : Int) = min sample_len file_size ∧
        (s.offset : Int) + (s.length : Int) ≤ file_size) := by
  constructor
  · intro hguard
    rw [choose_samples, if_pos hguard]
  · intro hguard s hs
    rw [choose_samples, if_neg hguard] at hs
    push_neg at hguard
    rcases List.mem_map.mp hs with ⟨i, _, rfl⟩
    have hlenpos : (0 : Int) < min sample_len file_size := by
      rcases hguard with ⟨h1, h2, h3⟩
      omega
    have hboundpos : (0 : Int) < file_size - min sample_len file_size + 1 := by
      omega
    have hrng := hr i ((file_size - min sample_len file_size + 1).toNat)
      (by omega)
    constructor
    · simp only []
      omega
    · simp only []
      omega

/-- Witness for C5: a valid triple gives ranges inside the file, and a
non-positive file size gives the empty list. -/
theorem C5_choose_samples_spec_witness :
    choose_samples (-3) 2 4 (fun _ _ => 0) = [] ∧
    (∀ s ∈ choose_samples 10 2 4 (fun _ n => n - 1),
      (s.length : Int) = min 4 10 ∧ (s.offset : Int) + (s.length : Int) ≤ 10) := by
  constructor
  · exact (C5_choose_samples_spec (-3) 2 4 (fun _ _ => 0)
      (fun _ n hn => hn)).1 (by omega)
  · exact (C5_choose_samples_spec 10 2 4 (fun _ n => n - 1)
      (fun _ n hn => show n - 1 < n by omega)).2 (by omega)

/-- C6: `build_pass_count` raises the invalid-bounds `ValueError` when
`min_passes < 1` or `max_passes < min_passes`; with valid bounds it returns
exactly `min_passes` when `randomize` is false or the bounds coincide, and
otherwise a value in `[min_passes, max_passes]` inclusive.  `rnd n` models
`secrets.randbelow(n)`, so `0 ≤ rnd n < n` whenever `0 < n`. -/
theorem C6_build_pass_count_spec (minP maxP : Int) (randomize : Bool)
    (rnd : Int → Int)
    (hr : ∀ n, 0 < n → 0 ≤ rnd n ∧ rnd n < n) :
    ((minP < 1 ∨ maxP < minP) →
      build_pass_count minP maxP randomize rnd = .error "Invalid pass bounds") ∧
    (1 ≤ minP → minP ≤ maxP →
      ((randomize = false ∨ minP = maxP) →
        build_pass_count minP maxP randomize rnd = .ok minP) ∧
      (∀ k, build_pass_count minP maxP randomize rnd = .ok k →
        minP ≤ k ∧ k ≤ maxP)) := by
  constructor
  · intro hbad
    rw [build_pass_count, if_pos hbad]
  · intro h1 h2
    constructor
    · intro hfix
      rw [build_pass_count, if_neg (by omega), if_pos hfix]
    · intro k hk
      rw [build_pass_count, if_neg (by omega)] at hk
      by_cases hfix : randomize = false ∨ minP = maxP
      · rw [if_pos hfix] at hk
        have hkeq : minP = k := by injection hk
        omega
      · rw [if_neg hfix] at hk
        have hrng := hr (maxP - minP + 1) (by omega)
        have hkeq : minP + rnd (maxP - minP + 1) = k := by
          injection hk
        omega

/-- Witness for C6: valid fixed bounds give exactly `min_passes`; randomized
bounds stay inside the interval; inverted bounds raise the error. -/
theorem C6_build_pass_count_spec_witness :
    build_pass_count 3 7 false (fun n => n - 1) = .ok 3 ∧
    (∀ k, build_pass_count 3 7 true (fun n => n - 1) = .ok k → 3 ≤ k ∧ k ≤ 7) ∧
    build_pass_count 5 2 true (fun n => n - 1) = .error "Invalid pass bounds" := by
  refine ⟨?_, ?_, ?_⟩
  · exact ((C6_build_pass_count_spec 3 7 false (fun n => n - 1)
      (fun n hn => ⟨show (0 : Int) ≤ n - 1 by omega, show n - 1 < n by omega⟩)).2 (by omega) (by omega)).1
      (Or.inl rfl)
  · exact ((C6_build_pass_count_spec 3 7 true (fun n => n - 1)
      (fun n hn => ⟨show (0 : Int) ≤ n - 1 by omega, show n - 1 < n by omega⟩)).2 (by omega) (by omega)).2
  · exact (C6_build_pass_count_spec 5 2 true (fun n => n - 1)
      (fun n hn => ⟨show (0 : Int) ≤ n - 1 by omega, show n - 1 < n by omega⟩)).1 (by omega)

/-! Deletion sequencer: rename-chain invariants. -/

theorem rename_loop_succ (rng : Nat → Nat → Nat) (fs : FS) (cur k r : Nat) :
    rename_loop rng fs cur k (r + 1) =
      ((rename_loop rng (rename_once fs cur (rng k)).1
          (rename_once fs cur (rng k)).2.1 (k + 1) r).1,
        (rename_once fs cur (rng k)).2.2 ++
          (rename_loop rng (rename_once fs cur (rng k)).1
            (rename_once fs cur (rng k)).2.1 (k + 1) r).2) :=
  rfl

theorem rename_once_fst_self (fs : FS) (cur : Nat) (draw : Nat → Nat) :
    (rename_once fs cur draw).1 ((rename_once fs cur draw).2.1) = fs cur := by
  simp [rename_once]

theorem rename_loop_spec (rng : Nat → Nat → Nat) (sz : Nat) :
    ∀ (r : Nat) (fs : FS) (cur k : Nat), fs cur = some sz →
    (rename_loop rng fs cur k r).1.1 ((rename_loop rng fs cur k r).1.2) =
      some sz ∧
    (∀ n, n ≠ (rename_loop rng fs cur k r).1.2 →
      (rename_loop rng fs cur k r).1.1 n = none ∨
      (n ≠ cur ∧ (rename_loop rng fs cur k r).1.1 n = fs n))
  | 0, fs, cur, k, hcur => ⟨hcur, fun n hn => Or.inr ⟨hn, rfl⟩⟩
  | r + 1, fs, cur, k, hcur => by
      rw [rename_loop_succ]
      have hc1 : (rename_once fs cur (rng k)).1
          ((rename_once fs cur (rng k)).2.1) = some sz := by
        rw [rename_once_fst_self]
        exact hcur
      have hrec := rename_loop_spec rng sz r (rename_once fs cur (rng k)).1
        (rename_once fs cur (rng k)).2.1 (k + 1) hc1
      refine ⟨hrec.1, fun n hn => ?_⟩
      rcases hrec.2 n hn with h | ⟨hne, heq⟩
      · exact Or.inl h
      · rw [heq]
        simp only [rename_once] at hne ⊢
        rw [if_neg hne]
        by_cases hcur2 : n = cur
        · rw [if_pos hcur2]
          exact Or.inl rfl
        · rw [if_neg hcur2]
          exact Or.inr ⟨hcur2, rfl⟩

theorem rename_loop_ops (rng : Nat → Nat → Nat) :
    ∀ (r : Nat) (fs : FS) (cur k : Nat),
    ∀ op ∈ (rename_loop rng fs cur k r).2,
      (∃ a b, op = FsOp.rename a b) ∨ op = FsOp.dirsync
  | 0, fs, cur, k, op, hop => absurd hop (by simp [rename_loop])
  | r + 1, fs, cur, k, op, hop => by
      rw [rename_loop_succ] at hop
      simp only [List.mem_append] at hop
      rcases hop with hop | hop
      · simp only [rename_once, List.mem_cons, List.not_mem_nil, or_false] at hop
        rcases hop with rfl | rfl
        · exact Or.inl ⟨_, _, rfl⟩
        · exact Or.inr rfl
      · exact rename_loop_ops rng r _ _ (k + 1) op hop

theorem rtu_fst_false (fs : FS) (path R : Nat) (rng : Nat → Nat → Nat) :
    (rename_truncate_unlink fs path R false rng).1 =
      (fun n => if n = (rename_loop rng fs path 0 R).1.2 then none
        else if n = (rename_loop rng fs path 0 R).1.2 then
          (if ((rename_loop rng fs path 0 R).1.1
              ((rename_loop rng fs path 0 R).1.2)).isSome = true
           then some 0 else (rename_loop rng fs path 0 R).1.1 n)
        else (rename_loop rng fs path 0 R).1.1 n,
       (rename_loop rng fs path 0 R).1.2) :=
  rfl

theorem rtu_fst_true (fs : FS) (path R : Nat) (rng : Nat → Nat → Nat) :
    (rename_truncate_unlink fs path R true rng).1 =
      (fun n => if n = (rename_loop rng fs path 0 R).1.2 then
          (if ((rename_loop rng fs path 0 R).1.1
              ((rename_loop rng fs path 0 R).1.2)).isSome = true
           then some 0 else (rename_loop rng fs path 0 R).1.1 n)
        else (rename_loop rng fs path 0 R).1.1 n,
       (rename_loop rng fs path 0 R).1.2) :=
  rfl

theorem rtu_delete_spec (fs : FS) (path R : Nat) (rng : Nat → Nat → Nat)
    (sz : Nat) (hfs : fs path = some sz) :
    (rename_truncate_unlink fs path R false rng).1.1 path = none ∧
    (rename_truncate_unlink fs path R false rng).1.1
      ((rename_truncate_unlink fs path R false rng).1.2) = none := by
  have hspec := rename_loop_spec rng sz R fs path 0 hfs
  rw [rtu_fst_false]
  simp only []
  constructor
  · by_cases hp : path = (rename_loop rng fs path 0 R).1.2
    · rw [if_pos hp]
    · rw [if_neg hp, if_neg hp]
      rcases hspec.2 path hp with h | ⟨hne, _⟩
      · exact h
      · exact absurd rfl hne
  · simp

theorem rtu_keep_spec (fs : FS) (path R : Nat) (rng : Nat → Nat → Nat)
    (sz : Nat) (hfs : fs path = some sz) :
    (rename_truncate_unlink fs path R true rng).1.1
      ((rename_truncate_unlink fs path R true rng).1.2) = some 0 := by
  have hspec := rename_loop_spec rng sz R fs path 0 hfs
  rw [rtu_fst_true]
  simp only []
  rw [if_pos trivial, hspec.1]
  simp

theorem rtu_trace (fs : FS) (path R : Nat) (keep : Bool)
    (rng : Nat → Nat → Nat) :
    (rename_truncate_unlink fs path R keep rng).2 =
      (rename_loop rng fs path 0 R).2 ++
        [FsOp.truncate (rename_truncate_unlink fs path R keep rng).1.2,
         FsOp.flushFile, FsOp.syncFile] ++
        (if keep then [FsOp.dirsync]
         else [FsOp.unlink (rename_truncate_unlink fs path R keep rng).1.2,
               FsOp.dirsync]) := by
  cases keep <;> simp [rename_truncate_unlink]

/-- C8: on a successful finalization of an existing file with `R ≥ 0` rename
passes (`R = 0` skipping the rename stage), the operation trace is the rename
stage (renames and directory syncs only, empty when `R = 0`) followed by
truncate, flush and durable sync of the final name, followed by a directory
sync (keep) or unlink plus directory sync (delete); with `keep = false` the
original path and the final renamed name both no longer exist, and with
`keep = true` the final renamed name (the returned path) holds exactly the
one zero-length file the map records. -/
theorem C8_deletion_sequencing (fs : FS) (path R : Nat) (keep : Bool)
    (rng : Nat → Nat → Nat) (sz : Nat) (hfs : fs path = some sz) :
    ((rename_truncate_unlink fs path R false rng).1.1 path = none ∧
     (rename_truncate_unlink fs path R false rng).1.1
       ((rename_truncate_unlink fs path R false rng).1.2) = none) ∧
    ((rename_truncate_unlink fs path R true rng).1.1
       ((rename_truncate_unlink fs path R true rng).1.2) = some 0) ∧
    (∃ rtr,
      (rename_truncate_unlink fs path R keep rng).2 =
        rtr ++ [FsOp.truncate (rename_truncate_unlink fs path R keep rng).1.2,
          FsOp.flushFile, FsOp.syncFile] ++
          (if keep then [FsOp.dirsync]
           else [FsOp.unlink (rename_truncate_unlink fs path R keep rng).1.2,
             FsOp.dirsync]) ∧
      (∀ op ∈ rtr, (∃ a b, op = FsOp.rename a b) ∨ op = FsOp.dirsync) ∧
      (R = 0 → rtr = [])) :=
  ⟨rtu_delete_spec fs path R rng sz hfs,
   rtu_keep_spec fs path R rng sz hfs,
   ⟨(rename_loop rng fs path 0 R).2,
    rtu_trace fs path R keep rng,
    fun op hop => rename_loop_ops rng R fs path 0 op hop,
    fun h0 => by subst h0; rfl⟩⟩

/-- Witness for C8: a one-entry directory, one rename pass; deleting removes
the original name, keeping leaves a zero-length file at the final name. -/
theorem C8_deletion_sequencing_witness :
    (rename_truncate_unlink (fun n => if n = 0 then some 5 else none) 0 1 false
      (fun _ _ => 7)).1.1 0 = none ∧
    (rename_truncate_unlink (fun n => if n = 0 then some 5 else none) 0 1 true
      (fun _ _ => 7)).1.1
      ((rename_truncate_unlink (fun n => if n = 0 then some 5 else none) 0 1
        true (fun _ _ => 7)).1.2) = some 0 :=
  ⟨(C8_deletion_sequencing (fun n => if n = 0 then some 5 else none) 0 1 false
      (fun _ _ => 7) 5 rfl).1.1,
   (C8_deletion_sequencing (fun n => if n = 0 then some 5 else none) 0 1 false
      (fun _ _ => 7) 5 rfl).2.1⟩

theorem retry_loop_all_collide (fs : FS) (draw : Nat → Nat) (t : Nat)
    (hall : ∀ i, i ≤ 10 → (fs (draw i)).isSome = true) (ht : t ≤ 10) :
    retry_loop fs draw (draw t) t = draw 10 := by
  by_cases h : t < 10
  · rw [retry_loop, if_pos ⟨hall t ht, h⟩]
    exact retry_loop_all_collide fs draw (t + 1) hall (by omega)
  · have ht10 : t = 10 := by omega
    subst ht10
    rw [retry_loop, if_neg (fun hcon => absurd hcon.2 (by omega))]
termination_by 10 - t
decreasing_by omega

theorem retry_loop_bounded (fs : FS) (draw : Nat → Nat) (t : Nat)
    (ht : t ≤ 10) :
    ∃ i, t ≤ i ∧ i ≤ 10 ∧ retry_loop fs draw (draw t) t = draw i := by
  by_cases hc : (fs (draw t)).isSome = true ∧ t < 10
  · rw [retry_loop, if_pos hc]
    rcases retry_loop_bounded fs draw (t + 1) (by omega) with ⟨i, h1, h2, h3⟩
    exact ⟨i, by omega, h2, h3⟩
  · rw [retry_loop, if_neg hc]
    exact ⟨t, Nat.le_refl t, ht, rfl⟩
termination_by 10 - t
decreasing_by
  have := hc.2
  omega

/-- C10: in one rename pass the candidate name is regenerated at most 10
times (the chosen candidate is always one of the first 11 draws); when every
one of those 11 draws names an existing entry, the loop settles on the 10th
regeneration, which still collides, and the rename is performed anyway onto
that colliding name, replacing the existing entry. -/
theorem C10_rename_collision_retry (fs : FS) (cur : Nat)
    (draw : Nat → Nat) :
    (∃ i, i ≤ 10 ∧ (rename_once fs cur draw).2.1 = draw i) ∧
    ((∀ i, i ≤ 10 → (fs (draw i)).isSome = true) →
      (rename_once fs cur draw).2.1 = draw 10 ∧
      (fs (draw 10)).isSome = true ∧
      (rename_once fs cur draw).1 (draw 10) = fs cur) := by
  constructor
  · rcases retry_loop_bounded fs draw 0 (by omega) with ⟨i, _, h2, h3⟩
    exact ⟨i, h2, h3⟩
  · intro hall
    have hcand : retry_loop fs draw (draw 0) 0 = draw 10 :=
      retry_loop_all_collide fs draw 0 hall (by omega)
    refine ⟨hcand, hall 10 (by omega), ?_⟩
    simp only [rename_once]
    rw [if_pos hcand.symm]

/-- Witness for C10: with every name taken, the pass picks the 10th
regeneration and renames onto it, replacing the existing entry. -/
theorem C10_rename_collision_retry_witness :
    (rename_once (fun _ => some 1) 99 (fun i => i)).2.1 = 10 ∧
    (rename_once (fun _ => some 1) 99 (fun i => i)).1 10 = some 1 := by
  have h := (C10_rename_collision_retry (fun _ => some 1) 99 (fun i => i)).2
    (by intro i _; rfl)
  exact ⟨h.1, h.2.2⟩

theorem build_pass_count_ok (minP maxP : Int) (rz : Bool) (rnd : Int → Int)
    (h1 : 1 ≤ minP) (h2 : minP ≤ maxP) :
    ∃ P, build_pass_count minP maxP rz rnd = .ok P := by
  rw [build_pass_count, if_neg (by omega)]
  by_cases hfix : rz = false ∨ minP = maxP
  · rw [if_pos hfix]
    exact ⟨minP, rfl⟩
  · rw [if_neg hfix]
    exact ⟨_, rfl⟩

/-- C9: wiping an existing zero-byte regular file succeeds without running
any overwrite pass — the result is independent of the planned samples, the
pass contents and the read-back (the streaming engine is never consulted),
`overwrite_random_streaming` returns at once on size `0`, and the write loop
emits no chunk — while the deletion sequence still runs: afterwards neither
the original path nor the final renamed name exists. -/
theorem C9_zero_byte_file (fs : FS) (path : Nat) (minP maxP : Int)
    (rz : Bool) (passRnd : Int → Int) (csz : Nat)
    (samplesF samplesF2 : Nat → List Sample) (writeF writeF2 : Nat → List Nat)
    (readF readF2 : Nat → Nat → Nat → List Nat) (R : Nat)
    (rng : Nat → Nat → Nat) (passes : Nat)
    (hfs : fs path = some 0) (h1 : 1 ≤ minP) (h2 : minP ≤ maxP) :
    (wipe_file .file fs path minP maxP rz passRnd csz samplesF writeF readF
      R false rng).1 = none ∧
    (wipe_file .file fs path minP maxP rz passRnd csz samplesF writeF readF
      R false rng).2 path = none ∧
    (wipe_file .file fs path minP maxP rz passRnd csz samplesF writeF readF
      R false rng).2 ((rename_truncate_unlink fs path R false rng).1.2)
      = none ∧
    wipe_file .file fs path minP maxP rz passRnd csz samplesF writeF readF
      R false rng =
      wipe_file .file fs path minP maxP rz passRnd csz samplesF2 writeF2
        readF2 R false rng ∧
    overwrite_random_streaming 0 csz passes samplesF writeF readF = .ok () ∧
    chunkLoop 0 csz 0 = [] := by
  obtain ⟨P, hP⟩ := build_pass_count_ok minP maxP rz passRnd h1 h2
  have hwipe : ∀ (sf : Nat → List Sample) (wf : Nat → List Nat)
      (rf : Nat → Nat → Nat → List Nat),
      wipe_file .file fs path minP maxP rz passRnd csz sf wf rf R false rng =
        (none, (rename_truncate_unlink fs path R false rng).1.1) := by
    intro sf wf rf
    simp only [wipe_file, wipe_file_checks, followExists, followIsDir,
      isSymlink, hP, hfs, Option.getD_some]
    simp
  have hdel := rtu_delete_spec fs path R rng 0 hfs
  refine ⟨?_, ?_, ?_, ?_, ?_, ?_⟩
  · rw [hwipe samplesF writeF readF]
  · rw [hwipe samplesF writeF readF]
    exact hdel.1
  · rw [hwipe samplesF writeF readF]
    exact hdel.2
  · rw [hwipe samplesF writeF readF, hwipe samplesF2 writeF2 readF2]
  · rw [overwrite_random_streaming, if_pos rfl]
  · rw [chunkLoop]
    simp

/-- Witness for C9 at concrete inputs: success and an empty chunk list. -/
theorem C9_zero_byte_file_witness :
    (wipe_file .file (fun n => if n = 0 then some 0 else none) 0 3 7 false
      (fun _ => 0) 4096 (fun _ => []) (fun _ => []) (fun _ _ _ => []) 1 false
      (fun _ _ => 7)).1 = none ∧
    chunkLoop 0 4096 0 = [] := by
  have h := C9_zero_byte_file (fun n => if n = 0 then some 0 else none) 0 3 7
    false (fun _ => 0) 4096 (fun _ => []) (fun _ => []) (fun _ => [])
    (fun _ => []) (fun _ _ _ => []) (fun _ _ _ => []) 1 (fun _ _ => 7) 3
    rfl (by omega) (by omega)
  exact ⟨h.1, h.2.2.2.2.2⟩

/-! Verify-phase success and first-mismatch characterisation. -/

theorem check_filled_loop_ok :
    ∀ (fl : List (List Nat)), (∀ m ∈ fl, all_filled m = true) →
    check_filled_loop fl = .ok ()
  | [], _ => rfl
  | m0 :: ms, hall => by
      rw [check_filled_loop, if_pos (hall m0 (by simp))]
      exact check_filled_loop_ok ms (fun m hm => hall m (by simp [hm]))

theorem verify_read_loop_ok (p : Nat) (readF : Nat → Nat → List Nat) :
    ∀ (ss : List Sample) (es : List (List Nat)) (idx : Nat),
    ss.length = es.length →
    (∀ i, i < ss.length →
      readF (ss.getD i ⟨0, 0⟩).offset (ss.getD i ⟨0, 0⟩).length =
        es.getD i []) →
    verify_read_loop p readF idx ss es = .ok ()
  | [], [], idx, _, _ => rfl
  | s :: ss, e :: es, idx, hlen, hmatch => by
      rw [verify_read_loop, if_pos (by simpa using hmatch 0 (by simp))]
      exact verify_read_loop_ok p readF ss es (idx + 1) (by simpa using hlen)
        (fun i hi => by simpa using hmatch (i + 1) (by simpa using hi))

theorem verify_read_loop_first_fail (p : Nat) (readF : Nat → Nat → List Nat) :
    ∀ (i : Nat) (ss : List Sample) (es : List (List Nat)) (idx : Nat),
    i < ss.length → ss.length = es.length →
    (∀ j, j < i →
      readF (ss.getD j ⟨0, 0⟩).offset (ss.getD j ⟨0, 0⟩).length =
        es.getD j []) →
    readF (ss.getD i ⟨0, 0⟩).offset (ss.getD i ⟨0, 0⟩).length ≠
      es.getD i [] →
    verify_read_loop p readF idx ss es =
      .error (.verificationMismatch p (idx + i + 1) (ss.getD i ⟨0, 0⟩).offset)
  | 0, s :: ss, e :: es, idx, hi, hlen, hlt, hne => by
      rw [verify_read_loop, if_neg (by simpa using hne)]
      simp
  | i + 1, s :: ss, e :: es, idx, hi, hlen, hlt, hne => by
      rw [verify_read_loop, if_pos (by simpa using hlt 0 (by omega))]
      have := verify_read_loop_first_fail p readF i ss es (idx + 1)
        (by simpa using hi) (by simpa using hlen)
        (fun j hj => by simpa using hlt (j + 1) (by omega))
        (by simpa using hne)
      rw [this]
      congr 1
      simp only [List.getD_cons_succ]
      congr 1
      omega

theorem stream_capture_lengths (samples : List Sample) (size csz : Nat)
    (wd : List Nat) :
    (stream_capture samples size csz wd).1.length = samples.length ∧
    (stream_capture samples size csz wd).2.length = samples.length := by
  rw [stream_capture]
  exact stream_fold_length samples wd (chunkLoop size csz 0) _ _
    (by simp) (by simp)

theorem run_pass_ok (size csz : Nat) (samples : List Sample) (wd : List Nat)
    (readF : Nat → Nat → List Nat) (p : Nat)
    (hcs : 1 ≤ csz) (hwd : size ≤ wd.length)
    (hsamp : ∀ s ∈ samples, s.offset + s.length ≤ size)
    (hmatch : ∀ i, i < samples.length →
      readF (samples.getD i ⟨0, 0⟩).offset (samples.getD i ⟨0, 0⟩).length =
        (stream_capture samples size csz wd).1.getD i []) :
    run_pass size csz samples wd readF p = .ok () := by
  rw [run_pass]
  by_cases hnil : samples.isEmpty
  · simp [hnil]
  · rw [if_neg hnil, verify_phase,
      check_filled_loop_ok _ (fun m hm =>
        (List.all_eq_true).mpr (fun b hb => by
          rw [stream_capture_all_filled size csz samples wd hcs hwd hsamp m hm
            b hb]
          rfl))]
    exact verify_read_loop_ok p readF samples _ 0
      (by rw [(stream_capture_lengths samples size csz wd).1]) hmatch

theorem run_pass_first_fail (size csz : Nat) (samples : List Sample)
    (wd : List Nat) (readF : Nat → Nat → List Nat) (p i : Nat)
    (hcs : 1 ≤ csz) (hwd : size ≤ wd.length)
    (hsamp : ∀ s ∈ samples, s.offset + s.length ≤ size)
    (hi : i < samples.length)
    (hlt : ∀ j, j < i →
      readF (samples.getD j ⟨0, 0⟩).offset (samples.getD j ⟨0, 0⟩).length =
        (stream_capture samples size csz wd).1.getD j [])
    (hne : readF (samples.getD i ⟨0, 0⟩).offset
        (samples.getD i ⟨0, 0⟩).length ≠
      (stream_capture samples size csz wd).1.getD i []) :
    run_pass size csz samples wd readF p =
      .error (.verificationMismatch p (i + 1)
        (samples.getD i ⟨0, 0⟩).offset) := by
  rw [run_pass]
  rw [if_neg (by
    intro hemp
    rw [List.isEmpty_iff] at hemp
    subst hemp
    simp at hi)]
  rw [verify_phase,
    check_filled_loop_ok _ (fun m hm =>
      (List.all_eq_true).mpr (fun b hb => by
        rw [stream_capture_all_filled size csz samples wd hcs hwd hsamp m hm
          b hb]
        rfl))]
  have := verify_read_loop_first_fail p readF i samples
    (stream_capture samples size csz wd).1 0 hi
    (by rw [(stream_capture_lengths samples size csz wd).1]) hlt hne
  rw [this]
  simp

theorem pass_loop_error_from (size csz passes : Nat)
    (sf : Nat → List Sample) (wf : Nat → List Nat)
    (rf : Nat → Nat → Nat → List Nat) (p : Nat) (e : WipeError) :
    ∀ (q : Nat), q ≤ p → p ≤ passes →
    (∀ r, q ≤ r → r < p → run_pass size csz (sf r) (wf r) (rf r) r = .ok ()) →
    run_pass size csz (sf p) (wf p) (rf p) p = .error e →
    pass_loop size csz passes sf wf rf q = .error e := by
  intro q hqp hpP hok herr
  by_cases hq : q = p
  · subst hq
    rw [pass_loop, if_neg (by omega), herr]
  · rw [pass_loop, if_neg (by omega), hok q (by omega) (by omega)]
    exact pass_loop_error_from size csz passes sf wf rf p e (q + 1)
      (by omega) hpP (fun r h1 h2 => hok r (by omega) h2) herr
termination_by q => p - q
decreasing_by omega

/-- C3: when every pass before `p` reads back exactly the captured expected
bytes but in pass `p` the first differing sample is index `i` (0-based), the
wipe fails with the verification-mismatch error naming pass `p`, 1-based
sample index `i + 1` and the sample's offset; the error short-circuits all
remaining passes, the deletion sequence is never attempted (the directory map
is returned unchanged), and the file is still present at its original path
and size. -/
theorem C3_verification_mismatch_aborts
    (fs : FS) (path : Nat) (minP maxP : Int) (rz : Bool) (passRnd : Int → Int)
    (csz : Nat) (sf : Nat → List Sample) (wf : Nat → List Nat)
    (rf : Nat → Nat → Nat → List Nat) (R : Nat) (keep : Bool)
    (rng : Nat → Nat → Nat) (size : Nat) (P : Int) (p i : Nat)
    (hfs : fs path = some size) (hsize : 0 < size) (hcs : 1 ≤ csz)
    (hP : build_pass_count minP maxP rz passRnd = .ok P)
    (hp1 : 1 ≤ p) (hp2 : p ≤ P.toNat)
    (hsamp : ∀ q, 1 ≤ q → q ≤ p → ∀ s ∈ sf q, s.offset + s.length ≤ size)
    (hwd : ∀ q, 1 ≤ q → q ≤ p → size ≤ (wf q).length)
    (hok : ∀ q, 1 ≤ q → q < p → ∀ j, j < (sf q).length →
      rf q ((sf q).getD j ⟨0, 0⟩).offset ((sf q).getD j ⟨0, 0⟩).length =
        (stream_capture (sf q) size csz (wf q)).1.getD j [])
    (hi : i < (sf p).length)
    (hlt : ∀ j, j < i →
      rf p ((sf p).getD j ⟨0, 0⟩).offset ((sf p).getD j ⟨0, 0⟩).length =
        (stream_capture (sf p) size csz (wf p)).1.getD j [])
    (hne : rf p ((sf p).getD i ⟨0, 0⟩).offset
        ((sf p).getD i ⟨0, 0⟩).length ≠
      (stream_capture (sf p) size csz (wf p)).1.getD i []) :
    wipe_file .file fs path minP maxP rz passRnd csz sf wf rf R keep rng =
      (some (.verificationMismatch p (i + 1)
        ((sf p).getD i ⟨0, 0⟩).offset), fs) ∧
    (wipe_file .file fs path minP maxP rz passRnd csz sf wf rf R keep
      rng).2 path = some size := by
  have hover : overwrite_random_streaming size csz P.toNat sf wf rf =
      .error (.verificationMismatch p (i + 1)
        ((sf p).getD i ⟨0, 0⟩).offset) := by
    rw [overwrite_random_streaming, if_neg (by omega)]
    exact pass_loop_error_from size csz P.toNat sf wf rf p _ 1 hp1 hp2
      (fun r h1 h2 => run_pass_ok size csz (sf r) (wf r) (rf r) r hcs
        (hwd r h1 (by omega)) (hsamp r h1 (by omega)) (hok r h1 h2))
      (run_pass_first_fail size csz (sf p) (wf p) (rf p) p i hcs
        (hwd p hp1 (Nat.le_refl p)) (hsamp p hp1 (Nat.le_refl p)) hi hlt hne)
  have hmain : wipe_file .file fs path minP maxP rz passRnd csz sf wf rf R
      keep rng = (some (.verificationMismatch p (i + 1)
        ((sf p).getD i ⟨0, 0⟩).offset), fs) := by
    simp only [wipe_file, wipe_file_checks, followExists, followIsDir,
      isSymlink, hP, hfs, Option.getD_some]
    rw [if_pos hsize, hover]
    simp
  exact ⟨hmain, by rw [hmain]; exact hfs⟩

/-- Witness for C3 at a concrete input: a 2-byte file, one pass, one sample
covering the file, read-back differing from the captured bytes; the wipe
fails with the mismatch error for pass 1, sample 1, offset 0 and the file is
still present. -/
theorem C3_verification_mismatch_aborts_witness :
    (wipe_file .file (fun n => if n = 0 then some 2 else none) 0 1 1 false
      (fun _ => 0) 4096 (fun _ => [⟨0, 2⟩]) (fun _ => [5, 6])
      (fun _ _ _ => [9, 9]) 2 false (fun _ _ => 7)).1 =
      some (.verificationMismatch 1 1 0) ∧
    (wipe_file .file (fun n => if n = 0 then some 2 else none) 0 1 1 false
      (fun _ => 0) 4096 (fun _ => [⟨0, 2⟩]) (fun _ => [5, 6])
      (fun _ _ _ => [9, 9]) 2 false (fun _ _ => 7)).2 0 = some 2 := by
  have hc : chunkLoop 2 4096 0 = [(0, 2)] := by
    rw [chunkLoop]
    norm_num
    rw [chunkLoop]
    norm_num
  have hcap : (stream_capture [⟨0, 2⟩] 2 4096 [5, 6]).1.getD 0 [] = [5, 6] := by
    rw [stream_capture, hc]
    rfl
  have h := C3_verification_mismatch_aborts
    (fun n => if n = 0 then some 2 else none) 0 1 1 false (fun _ => 0) 4096
    (fun _ => [⟨0, 2⟩]) (fun _ => [5, 6]) (fun _ _ _ => [9, 9]) 2 false
    (fun _ _ => 7) 2 1 1 0
    rfl (by decide) (by decide) rfl (by decide) (by decide)
    (fun q _ _ s hs => by rcases List.mem_singleton.mp hs with rfl; decide)
    (fun q _ _ => Nat.le_refl 2)
    (fun q h1 h2 => absurd h1 (by omega))
    (by decide)
    (fun j hj => absurd hj (by omega))
    (by rw [hcap]; decide)
  exact ⟨by rw [h.1]; rfl, h.2⟩

/-! Failure-injected deletion sequencer, for the IOError-propagation claim. -/

theorem renames_eff_all_ok (rf : Nat → Bool) :
    ∀ (r k : Nat), (∀ j, j < r → rf (k + j) = false) →
    renames_eff rf k r =
      (none, (List.range r).map (fun j => EffOp.renamed (k + j)))
  | 0, k, _ => rfl
  | r + 1, k, h => by
      have h0 : rf k = false := by simpa using h 0 (by omega)
      simp only [renames_eff]
      rw [if_neg (by simp [h0])]
      rw [renames_eff_all_ok rf r (k + 1) (fun j hj => by
        have := h (j + 1) (by omega)
        rwa [show k + (j + 1) = k + 1 + j by omega] at this)]
      simp only [Prod.mk.injEq, true_and]
      rw [List.range_succ_eq_map, List.map_cons, List.map_map]
      congr 1
      exact List.map_congr_left (fun a _ => by
        simp only [Function.comp_apply, Nat.succ_eq_add_one]
        congr 1
        omega)

theorem renames_eff_first_fail (rf : Nat → Bool) :
    ∀ (i r k : Nat), i < r → (∀ j, j < i → rf (k + j) = false) →
    rf (k + i) = true →
    renames_eff rf k r =
      (some (.renameFailed (k + i)),
        (List.range i).map (fun j => EffOp.renamed (k + j)))
  | _, 0, _, hi, _, _ => absurd hi (by omega)
  | 0, r + 1, k, _, _, hfail => by
      simp only [renames_eff]
      rw [if_pos (by simpa using hfail)]
      simp
  | i + 1, r + 1, k, hi, hlt, hfail => by
      have h0 : rf k = false := by simpa using hlt 0 (by omega)
      simp only [renames_eff]
      rw [if_neg (by simp [h0])]
      rw [renames_eff_first_fail rf i r (k + 1) (by omega)
        (fun j hj => by
          have := hlt (j + 1) (by omega)
          rwa [show k + (j + 1) = k + 1 + j by omega] at this)
        (by rwa [show k + 1 + i = k + (i + 1) by omega])]
      simp only [Prod.mk.injEq]
      constructor
      · rw [show k + 1 + i = k + (i + 1) by omega]
      · rw [List.range_succ_eq_map, List.map_cons, List.map_map]
        congr 1
        exact List.map_congr_left (fun a _ => by
        simp only [Function.comp_apply, Nat.succ_eq_add_one]
        congr 1
        omega)

/-- Counterexample for C4: with an IOError injected into the truncate/flush/
sync stage (and no other failure), the deletion sequence reports no error at
all and still proceeds to the unlink — the `except Exception: pass` of
source lines 245-246 swallows the error instead of propagating it. -/
theorem C4_truncate_error_swallowed_counterexample :
    (rename_truncate_unlink_eff (fun _ => false) true false 1 false).1 =
      none ∧
    EffOp.unlinked ∈
      (rename_truncate_unlink_eff (fun _ => false) true false 1 false).2 := by
  decide

/-- C4 (amended): an IOError in a rename pass or in the unlink propagates
immediately — the first failing rename aborts with exactly the already
completed renames performed, no retry and no further operation, and an
unlink failure is reported — but an IOError in the truncate/flush/sync stage
of the deletion sequence is caught and suppressed: the outcome is the same
as if that stage had succeeded and the sequence continues to the unlink. -/
theorem C4_io_error_propagation_amended (rf : Nat → Bool) (tf uf : Bool)
    (R k : Nat) (keep : Bool) :
    (k < R → (∀ j, j < k → rf j = false) → rf k = true →
      rename_truncate_unlink_eff rf tf uf R keep =
        (some (.renameFailed k), (List.range k).map EffOp.renamed)) ∧
    ((∀ j, j < R → rf j = false) → keep = false → uf = true →
      (rename_truncate_unlink_eff rf tf uf R keep).1 = some .unlinkFailed) ∧
    ((∀ j, j < R → rf j = false) →
      (rename_truncate_unlink_eff rf true uf R keep).1 =
        (rename_truncate_unlink_eff rf false uf R keep).1) ∧
    ((∀ j, j < R → rf j = false) → keep = false → uf = false →
      EffOp.unlinked ∈
        (rename_truncate_unlink_eff rf true uf R keep).2) := by
  refine ⟨?_, ?_, ?_, ?_⟩
  · intro hk hlt hfail
    have hre := renames_eff_first_fail rf k R 0 hk
      (fun j hj => by simpa using hlt j hj) (by simpa using hfail)
    simp only [Nat.zero_add] at hre
    rw [rename_truncate_unlink_eff, hre]
  · intro hok hkeep huf
    subst hkeep
    subst huf
    have hre := renames_eff_all_ok rf R 0 (fun j hj => by simpa using hok j hj)
    rw [rename_truncate_unlink_eff, hre]
    simp
  · intro hok
    have hre := renames_eff_all_ok rf R 0 (fun j hj => by simpa using hok j hj)
    rw [rename_truncate_unlink_eff, rename_truncate_unlink_eff, hre]
    cases keep <;> cases uf <;> simp
  · intro hok hkeep huf
    subst hkeep
    subst huf
    have hre := renames_eff_all_ok rf R 0 (fun j hj => by simpa using hok j hj)
    rw [rename_truncate_unlink_eff, hre]
    simp

/-- Witness for C4 (amended): the first failing rename (pass 1 of 3) aborts
with only rename 0 performed; an unlink failure is reported as the error. -/
theorem C4_io_error_propagation_amended_witness :
    rename_truncate_unlink_eff (fun j => j == 1) false false 3 false =
      (some (.renameFailed 1), [EffOp.renamed 0]) ∧
    (rename_truncate_unlink_eff (fun _ => false) false true 2 false).1 =
      some .unlinkFailed := by
  constructor
  · have h := (C4_io_error_propagation_amended (fun j => j == 1) false false
      3 1 false).1 (by omega)
      (fun j hj => by
        have : j = 0 := by omega
        subst this
        rfl)
      rfl
    exact h.trans (by decide)
  · exact (C4_io_error_propagation_amended (fun _ => false) false true 2 0
      false).2.1 (fun j _ => rfl) rfl rfl

/-- Counterexample for C7: a dangling symbolic link is a symlink, but
`wipe_file` reports the missing-target error, not the is-a-symlink error,
because `Path.exists()` follows the link and is checked first. -/
theorem C7_dangling_symlink_counterexample :
    isSymlink (Target.link .missing) = true ∧
    (wipe_file (Target.link .missing) (fun _ => none) 0 3 7 false (fun _ => 0)
      4096 (fun _ => []) (fun _ => []) (fun _ _ _ => []) 2 false
      (fun _ _ => 0)).1 = some .fileNotFound ∧
    (wipe_file (Target.link .missing) (fun _ => none) 0 3 7 false (fun _ => 0)
      4096 (fun _ => []) (fun _ => []) (fun _ _ _ => []) 2 false
      (fun _ _ => 0)).1 ≠ some .isASymlink := by
  refine ⟨rfl, rfl, fun hcon => ?_⟩
  have h2 : some WipeError.fileNotFound = some WipeError.isASymlink :=
    (rfl : (wipe_file (Target.link .missing) (fun _ => none) 0 3 7 false
      (fun _ => 0) 4096 (fun _ => []) (fun _ => []) (fun _ _ _ => []) 2 false
      (fun _ _ => 0)).1 = some WipeError.fileNotFound).symm.trans hcon
  exact absurd h2 (by decide)

/-- C7 (amended): `wipe_file` fails fast with a `PreconditionError` and
returns the directory map unchanged (no filesystem mutation, the referent is
never opened) whenever the target does not exist after following symlinks,
resolves to a directory, or is a symbolic link; the specific error follows
the source's check order — missing first (a dangling symlink therefore
reports the missing-target error), then is-a-directory (a symlink to a
directory reports the directory error), then is-a-symlink (a symlink to an
existing regular file reports the symlink error). -/
theorem C7_precondition_checks_amended (t : Target) (fs : FS) (path : Nat)
    (minP maxP : Int) (rz : Bool) (passRnd : Int → Int) (csz : Nat)
    (sf : Nat → List Sample) (wf : Nat → List Nat)
    (rf : Nat → Nat → Nat → List Nat) (R : Nat) (keep : Bool)
    (rng : Nat → Nat → Nat) :
    (followExists t = false →
      wipe_file t fs path minP maxP rz passRnd csz sf wf rf R keep rng =
        (some .fileNotFound, fs)) ∧
    (followExists t = true → followIsDir t = true →
      wipe_file t fs path minP maxP rz passRnd csz sf wf rf R keep rng =
        (some .isADirectory, fs)) ∧
    (followExists t = true → followIsDir t = false → isSymlink t = true →
      wipe_file t fs path minP maxP rz passRnd csz sf wf rf R keep rng =
        (some .isASymlink, fs)) := by
  refine ⟨?_, ?_, ?_⟩
  · intro h1
    have hc : wipe_file_checks t = some .fileNotFound := by
      rw [wipe_file_checks, if_pos h1]
    simp only [wipe_file, hc]
  · intro h1 h2
    have hc : wipe_file_checks t = some .isADirectory := by
      rw [wipe_file_checks, if_neg (by simp [h1]), if_pos h2]
    simp only [wipe_file, hc]
  · intro h1 h2 h3
    have hc : wipe_file_checks t = some .isASymlink := by
      rw [wipe_file_checks, if_neg (by simp [h1]), if_neg (by simp [h2]),
        if_pos h3]
    simp only [wipe_file, hc]

/-- Witness for C7 (amended): a symlink to an existing regular file fails
with the is-a-symlink error; a plain directory fails with the is-a-directory
error; a missing path fails with the missing-target error. -/
theorem C7_precondition_checks_amended_witness :
    (wipe_file (Target.link .file) (fun _ => some 4) 0 3 7 false (fun _ => 0)
      4096 (fun _ => []) (fun _ => []) (fun _ _ _ => []) 2 false
      (fun _ _ => 0)).1 = some .isASymlink ∧
    (wipe_file .dir (fun _ => some 4) 0 3 7 false (fun _ => 0)
      4096 (fun _ => []) (fun _ => []) (fun _ _ _ => []) 2 false
      (fun _ _ => 0)).1 = some .isADirectory ∧
    (wipe_file .missing (fun _ => some 4) 0 3 7 false (fun _ => 0)
      4096 (fun _ => []) (fun _ => []) (fun _ _ _ => []) 2 false
      (fun _ _ => 0)).1 = some .fileNotFound := by
  refine ⟨?_, ?_, ?_⟩
  · rw [(C7_precondition_checks_amended (Target.link .file) (fun _ => some 4)
      0 3 7 false (fun _ => 0) 4096 (fun _ => []) (fun _ => [])
      (fun _ _ _ => []) 2 false (fun _ _ => 0)).2.2 rfl rfl rfl]
  · rw [(C7_precondition_checks_amended .dir (fun _ => some 4)
      0 3 7 false (fun _ => 0) 4096 (fun _ => []) (fun _ => [])
      (fun _ _ _ => []) 2 false (fun _ _ => 0)).2.1 rfl rfl]
  · rw [(C7_precondition_checks_amended .missing (fun _ => some 4)
      0 3 7 false (fun _ => 0) 4096 (fun _ => []) (fun _ => [])
      (fun _ _ _ => []) 2 false (fun _ _ => 0)).1 rfl]

end StreamShred
